import Mathlib

/-!
Verification development for the mermaid-lint repository.

Shallow embedding of the core pipeline:
* `ExtractMermaidBlocks` (pkg/parser markdown fence extraction),
* `Parse` / `parseFlowchart` (pkg/parser flowchart structural parsing,
  including the two Go regular expressions `nodeDefPattern` and
  `edgePattern`, embedded as explicit leftmost-first matchers with
  greedy backtracking, the semantics of Go's `regexp` package),
* the six lint rules and the engine `lintDiagram` (pkg/linter),
* the configuration lookups (pkg/config).

Modelling notes:
* Go `int` is modelled as `Int` (overflow is unreachable for the line
  numbers involved).
* Go `fmt.Sprintf` `%q` is modelled as plain double-quoting; node ids
  always match `[A-Za-z_][A-Za-z0-9_]*`, for which `%q` is exactly
  plain quoting.
* `strings.ToLower` / `ToUpper` / `EqualFold` are modelled on ASCII,
  which is exact for every string they are compared against here
  ("mermaid", the lowercase type keywords, the direction set).
* `unicode.IsSpace` (used by `strings.TrimSpace` and `strings.Fields`)
  is modelled by the full finite White_Space set; the regex class `\s`
  is RE2's `[\t\n\f\r ]`.
-/

set_option maxRecDepth 8000

namespace MermaidLint

/-- The set accepted by Go `unicode.IsSpace` (strings.TrimSpace, strings.Fields). -/
def goIsSpace (c : Char) : Bool :=
  c = ' ' || c = '\t' || c = '\n' || c = '\x0b' || c = '\x0c' || c = '\r' ||
  c = '\x85' || c = '\xa0' || c = '\u1680' ||
  c = '\u2000' || c = '\u2001' || c = '\u2002' || c = '\u2003' || c = '\u2004' ||
  c = '\u2005' || c = '\u2006' || c = '\u2007' || c = '\u2008' || c = '\u2009' ||
  c = '\u200a' || c = '\u2028' || c = '\u2029' || c = '\u202f' || c = '\u205f' ||
  c = '\u3000'

/-- RE2 character class `\s`, i.e. `[\t\n\f\r ]` (note: no vertical tab). -/
def regexSpace (c : Char) : Bool :=
  c = '\t' || c = '\n' || c = '\x0c' || c = '\r' || c = ' '

/-- Regex class `[A-Za-z_]` (first char of an identifier in both patterns). -/
def isIdentStart (c : Char) : Bool :=
  (('A' ≤ c && c ≤ 'Z') || ('a' ≤ c && c ≤ 'z')) || c = '_'

/-- Regex class `[A-Za-z0-9_]` (continuation chars of an identifier). -/
def isIdentCont (c : Char) : Bool :=
  isIdentStart c || ('0' ≤ c && c ≤ '9')

/-- ASCII lower-casing of one char (model of `strings.ToLower` per rune). -/
def asciiLower (c : Char) : Char :=
  if 'A' ≤ c && c ≤ 'Z' then Char.ofNat (c.toNat + 32) else c

/-- ASCII upper-casing of one char (model of `strings.ToUpper` per rune). -/
def asciiUpper (c : Char) : Char :=
  if 'a' ≤ c && c ≤ 'z' then Char.ofNat (c.toNat - 32) else c

/-- `strings.ToLower`, ASCII model. -/
def toLowerStr (s : String) : String := String.mk (s.data.map asciiLower)

/-- `strings.ToUpper`, ASCII model. -/
def toUpperStr (s : String) : String := String.mk (s.data.map asciiUpper)

/-- `strings.TrimSpace`: drop Unicode white space from both ends. -/
def trimSpace (s : String) : String :=
  String.mk (((s.data.dropWhile goIsSpace).reverse.dropWhile goIsSpace).reverse)

/-- List-of-chars prefix test (first argument is the pattern). -/
def hasPrefixCL : List Char → List Char → Bool
  | [], _ => true
  | _ :: _, [] => false
  | p :: ps, c :: cs => p = c && hasPrefixCL ps cs

/-- `strings.HasPrefix s p`. -/
def hasPrefixStr (s p : String) : Bool := hasPrefixCL p.data s.data

/-- `strings.EqualFold`, ASCII model (exact for the literal "mermaid"). -/
def equalFoldAscii (a b : String) : Bool :=
  a.data.map asciiLower = b.data.map asciiLower

/-- `strings.Fields` worker: split on runs of `unicode.IsSpace`, fuelled. -/
def fieldsGo : Nat → List Char → List String
  | 0, _ => []
  | fuel + 1, s =>
    match s.dropWhile goIsSpace with
    | [] => []
    | c :: rest =>
      let w := rest.takeWhile (fun ch => !goIsSpace ch)
      String.mk (c :: w) :: fieldsGo fuel (rest.drop w.length)

/-- `strings.Fields`. -/
def fields (s : String) : List String := fieldsGo (s.data.length + 1) s.data

/-- `strings.Split(source, "\n")` worker (structural recursion; `acc`
holds the current line's characters in reverse). -/
def splitLinesGo : List Char → List Char → List String
  | [], acc => [String.mk acc.reverse]
  | c :: rest, acc =>
    if c = '\n' then String.mk acc.reverse :: splitLinesGo rest []
    else splitLinesGo rest (c :: acc)

/-- `strings.Split(source, "\n")`. -/
def splitLines (s : String) : List String := splitLinesGo s.data []

/-- `strings.Join(lines, "\n")`. -/
def joinNL : List String → String
  | [] => ""
  | [l] => l
  | l :: rest => l ++ "\n" ++ joinNL rest

/-! ## BlockExtractor (pkg/parser, `ExtractMermaidBlocks`) -/

/-- `parser.MermaidBlock`. -/
structure MermaidBlock where
  Source : String
  StartLine : Int
  EndLine : Int
  deriving DecidableEq

/-- `parser.isMermaidFenceOpen`: the line (already trimmed by the caller)
opens a mermaid fence. -/
def isMermaidFenceOpen (line : String) : Bool :=
  if hasPrefixStr line "```" then
    equalFoldAscii (trimSpace (String.mk (line.data.drop 3))) "mermaid"
  else if hasPrefixStr line "~~~" then
    equalFoldAscii (trimSpace (String.mk (line.data.drop 3))) "mermaid"
  else
    false

/-- `parser.isClosingFence`. -/
def isClosingFence (line : String) : Bool :=
  line = "```" || line = "~~~"

/-- The scanner loop of `parser.ExtractMermaidBlocks`.  `n` is the number
of lines already consumed (so the current line is line `n + 1`, 1-based);
the pending state carries the opening fence's line number and the
buffered source lines. -/
def scanBlocks : List String → Int → Option (Int × List String) → List MermaidBlock
  | [], _, _ => []
  | line :: rest, n, cur =>
    let lineNum := n + 1
    let trimmed := trimSpace line
    match cur with
    | none =>
      if isMermaidFenceOpen trimmed then
        scanBlocks rest lineNum (some (lineNum, []))
      else
        scanBlocks rest lineNum none
    | some (startL, buf) =>
      if isClosingFence trimmed then
        ⟨joinNL buf, startL, lineNum⟩ :: scanBlocks rest lineNum none
      else
        scanBlocks rest lineNum (some (startL, buf ++ [line]))

/-- The final scanner state after consuming the lines (used only to state
composition lemmas about `scanBlocks`). -/
def scanFinal : List String → Int → Option (Int × List String) → Option (Int × List String)
  | [], _, cur => cur
  | line :: rest, n, cur =>
    let lineNum := n + 1
    let trimmed := trimSpace line
    match cur with
    | none =>
      if isMermaidFenceOpen trimmed then
        scanFinal rest lineNum (some (lineNum, []))
      else
        scanFinal rest lineNum none
    | some (startL, buf) =>
      if isClosingFence trimmed then
        scanFinal rest lineNum none
      else
        scanFinal rest lineNum (some (startL, buf ++ [line]))

/-- `parser.ExtractMermaidBlocks`, taking the document as its list of
lines (what `bufio.Scanner` feeds the loop). -/
def ExtractMermaidBlocks (docLines : List String) : List MermaidBlock :=
  scanBlocks docLines 0 none

/-! ## DiagramParser (pkg/parser): data model -/

/-- `parser.Node`. -/
structure Node where
  ID : String
  Label : String
  Line : Int
  Shape : String
  deriving DecidableEq

/-- `parser.Edge`. -/
structure Edge where
  From : String
  To : String
  Label : String
  Line : Int
  Style : String
  deriving DecidableEq

/-- `parser.Diagram` (`Type` is the `DiagramType` string, `""` when no
declaration line exists, `"unknown"` for an unrecognized keyword). -/
structure Diagram where
  «Type» : String
  TypeRaw : String
  Direction : String
  Nodes : List Node
  Edges : List Edge
  Lines : List String
  StartLine : Int
  deriving DecidableEq

/-- `parser.KnownDiagramTypes`: lowercase keyword ↦ `DiagramType` value. -/
def KnownDiagramTypes : List (String × String) :=
  [("flowchart", "flowchart"), ("graph", "graph"), ("sequencediagram", "sequenceDiagram"),
   ("classdiagram", "classDiagram"), ("statediagram", "stateDiagram"),
   ("statediagram-v2", "stateDiagram-v2"), ("erdiagram", "erDiagram"), ("gantt", "gantt"),
   ("pie", "pie"), ("gitgraph", "gitGraph"), ("mindmap", "mindmap"), ("timeline", "timeline"),
   ("quadrantchart", "quadrantChart"), ("requirementdiagram", "requirementDiagram"),
   ("c4context", "C4Context"), ("c4container", "C4Container"), ("c4component", "C4Component"),
   ("c4dynamic", "C4Dynamic"), ("c4deployment", "C4Deployment"), ("sankey-beta", "sankey-beta"),
   ("block-beta", "block-beta"), ("xychart-beta", "xychart-beta")]

/-- Association-list lookup (Go map read). -/
def lookupDiagramType : List (String × String) → String → Option String
  | [], _ => none
  | (k, v) :: rest, key => if k = key then some v else lookupDiagramType rest key

/-- `parser.ValidFlowchartDirections`. -/
def ValidFlowchartDirections : List String := ["TB", "TD", "BT", "LR", "RL"]

/-- `(*Diagram).isDeclarationLine`: the trimmed, lowercased line starts
with a known type keyword (Go map iteration; the boolean result is
order-independent). -/
def isDeclarationLine (line : String) : Bool :=
  let lower := toLowerStr (trimSpace line)
  KnownDiagramTypes.any (fun kv => hasPrefixStr lower kv.1)

/-- `(*Diagram).parseType` loop: find the first non-blank, non-comment
line and return `(TypeRaw, Type, Direction)`. -/
def parseTypeLoop : List String → Option (String × String × String)
  | [] => none
  | line :: rest =>
    let trimmed := trimSpace line
    if (trimmed == "") || hasPrefixStr trimmed "%%" then parseTypeLoop rest
    else
      match fields trimmed with
      | [] => parseTypeLoop rest
      | keyword :: parts =>
        let ty := match lookupDiagramType KnownDiagramTypes (toLowerStr keyword) with
          | some dt => dt
          | none => "unknown"
        let dir := if ((ty == "flowchart") || (ty == "graph")) && !parts.isEmpty
          then parts.headD "" else ""
        some (keyword, ty, dir)

/-! ## The two Go regular expressions, as explicit leftmost-first matchers

Go's `regexp` package uses Perl-style leftmost-first semantics:
alternatives are tried in written order, quantifiers are greedy with
backtracking, and `FindAllStringSubmatch` collects successive
non-overlapping matches, each search resuming at the end of the
previous match.  Every starred subexpression in both patterns is a
character class, so greedy backtracking is: munch the maximal run of
class characters, then retry shorter runs until the rest of the
pattern matches. -/

/-- Maximal-munch match of `[A-Za-z_][A-Za-z0-9_]*` at the head of `s`
(exact here: in both patterns the identifier is never followed by a
character it could also consume, so no backtracking into it is needed). -/
def identMunch (s : List Char) : Option (List Char × List Char) :=
  match s with
  | [] => none
  | c :: rest =>
    if isIdentStart c then
      let w := rest.takeWhile isIdentCont
      some (c :: w, rest.drop w.length)
    else none

/-- Greedy backtracking for `class* suffix`: try the split point `j`
(characters consumed by the star), largest first. -/
def greedyBack (suffix s : List Char) : Nat → Option Nat
  | 0 => if hasPrefixCL suffix s then some 0 else none
  | j + 1 =>
    if hasPrefixCL suffix (s.drop (j + 1)) then some (j + 1)
    else greedyBack suffix s j

/-- Match `class* suffix` at the head of `s`, returning the star's
capture and the remainder, with greedy (longest-first) semantics. -/
def classStarThen (cls : Char → Bool) (suffix : List Char) (s : List Char) :
    Option (List Char × List Char) :=
  match greedyBack suffix s ((s.takeWhile cls).length) with
  | some j => some (s.take j, s.drop (j + suffix.length))
  | none => none

/-- One alternative of the bracketed-label group of `nodeDefPattern`:
literal opener, starred character class (the capture), literal closer,
and the Go capture-group index. -/
structure ShapeAlt where
  pre : List Char
  cls : Char → Bool
  suf : List Char
  group : Nat

/-- The ten alternatives of `nodeDefPattern`'s optional group, in the
written (preference) order of the Go pattern:
`\[([^\]]*)\]` | `\(([^)]*)\)` | `\{([^}]*)\}` | `\[\[([^\]]*)\]\]` |
`\[\(([^)]*)\)\]` | `\(\[([^\]]*)\]\)` | `\(\(([^)]*)\)\)` |
`>([^\]]*)\]` | `\[/([^\]]*)/\]` | `\[\\([^\]]*)\\\]`. -/
def shapeAlts : List ShapeAlt :=
  [⟨"[".data, fun c => c != ']', "]".data, 2⟩,
   ⟨"(".data, fun c => c != ')', ")".data, 3⟩,
   ⟨"\x7b".data, fun c => c != '}', "\x7d".data, 4⟩,
   ⟨"[[".data, fun c => c != ']', "]]".data, 5⟩,
   ⟨"[(".data, fun c => c != ')', ")]".data, 6⟩,
   ⟨"([".data, fun c => c != ']', "])".data, 7⟩,
   ⟨"((".data, fun c => c != ')', "))".data, 8⟩,
   ⟨">".data, fun c => c != ']', "]".data, 9⟩,
   ⟨"[/".data, fun c => c != ']', "/]".data, 10⟩,
   ⟨"[\\".data, fun c => c != ']', "\\]".data, 11⟩]

/-- Try the shape alternatives in order; the first one that matches
wins (leftmost-first alternation).  Returns the Go group index, the
capture, and the remainder. -/
def tryShapeAux : List ShapeAlt → List Char → Option (Nat × List Char × List Char)
  | [], _ => none
  | alt :: rest, s =>
    if hasPrefixCL alt.pre s then
      match classStarThen alt.cls alt.suf (s.drop alt.pre.length) with
      | some (cap, r) => some (alt.group, cap, r)
      | none => tryShapeAux rest s
    else tryShapeAux rest s

/-- The optional bracketed-label group of `nodeDefPattern`. -/
def tryShape (s : List Char) : Option (Nat × List Char × List Char) :=
  tryShapeAux shapeAlts s

/-- The Go submatch vector positions 2..11 (one slot per capture group
of the shape alternation); only the matched alternative's slot is
non-empty. -/
def mkGroups (j : Nat) (cap : String) : List String :=
  (List.range 10).map (fun k => if k + 2 = j then cap else "")

/-- One `nodeDefPattern` match: `id` is group 1, `groups` are the
submatch slots 2..11. -/
structure NodeMatch where
  id : String
  groups : List String
  deriving DecidableEq

/-- Match `([A-Za-z_][A-Za-z0-9_]*)(?:…)?` at the head of `s` (the part
of `nodeDefPattern` after the boundary).  The optional group is greedy:
it is taken whenever one alternative matches, otherwise empty. -/
def tryNodeIdentAt (s : List Char) : Option (NodeMatch × List Char) :=
  match identMunch s with
  | none => none
  | some (idc, rest) =>
    match tryShape rest with
    | some (j, cap, rest2) => some (⟨String.mk idc, mkGroups j (String.mk cap)⟩, rest2)
    | none => some (⟨String.mk idc, mkGroups 0 ""⟩, rest)

/-- Attempt a `nodeDefPattern` match starting exactly at the head of
`s`.  The leading `(?:^|[\s;])` tries `^` first (only at the start of
the subject), then consumes one `[\s;]` character. -/
def tryNodeMatchAt (s : List Char) (atStart : Bool) : Option (NodeMatch × List Char) :=
  if atStart then
    match tryNodeIdentAt s with
    | some r => some r
    | none =>
      match s with
      | c :: t => if regexSpace c || c = ';' then tryNodeIdentAt t else none
      | [] => none
  else
    match s with
    | c :: t => if regexSpace c || c = ';' then tryNodeIdentAt t else none
    | [] => none

/-- `FindAllStringSubmatch` scan for `nodeDefPattern`: try each start
position left to right, resume after the end of each match.  Every
match consumes at least one character, so `s.length + 1` fuel suffices. -/
def nodeScanAux : Nat → List Char → Bool → List NodeMatch
  | 0, _, _ => []
  | fuel + 1, s, atStart =>
    match tryNodeMatchAt s atStart with
    | some (m, rest) => m :: nodeScanAux fuel rest false
    | none =>
      match s with
      | [] => []
      | _ :: t => nodeScanAux fuel t false

/-- All `nodeDefPattern` matches of a line. -/
def nodeDefMatches (s : List Char) : List NodeMatch := nodeScanAux (s.length + 1) s true

/-- One element of an arrow literal: a literal character, `.` (any
character but newline), or a one-character class. -/
inductive CPat where
  | lit (c : Char)
  | anyc
  | oneOf (cs : List Char)

/-- Match one `CPat` element against one character. -/
def matchCPat : CPat → Char → Bool
  | .lit c0, c => c = c0
  | .anyc, c => c != '\n'
  | .oneOf cs, c => cs.contains c

/-- The arrow alternation of `edgePattern`, in written order:
`-->|---|-.->|-.-|==>|===|--[>x]|~~>|~~` (note `.` is the regex
any-character, not a literal dot). -/
def arrowPats : List (List CPat) :=
  [[.lit '-', .lit '-', .lit '>'],
   [.lit '-', .lit '-', .lit '-'],
   [.lit '-', .anyc, .lit '-', .lit '>'],
   [.lit '-', .anyc, .lit '-'],
   [.lit '=', .lit '=', .lit '>'],
   [.lit '=', .lit '=', .lit '='],
   [.lit '-', .lit '-', .oneOf ['>', 'x']],
   [.lit '~', .lit '~', .lit '>'],
   [.lit '~', .lit '~']]

/-- Match one arrow alternative at the head of `s`, returning the
matched text (the `Style` capture) and the remainder. -/
def matchArrowPat : List CPat → List Char → Option (List Char × List Char)
  | [], s => some ([], s)
  | _ :: _, [] => none
  | p :: ps, c :: rest =>
    if matchCPat p c then
      match matchArrowPat ps rest with
      | some (cs, r) => some (c :: cs, r)
      | none => none
    else none

/-- One `edgePattern` match: groups 1 (From), 2 (Style), 3 (Label,
empty when the `|…|` segment is absent) and 4 (To). -/
structure EdgeMatch where
  From : String
  Style : String
  Label : String
  To : String
  deriving DecidableEq

/-- The tail of `edgePattern` after the arrow:
`\s*(?:\|([^|]*)\|\s*)?([A-Za-z_][A-Za-z0-9_]*)`.  If the label group
starts (next char `|`) but fails, the backtracking fallback — the empty
group followed by an identifier — fails too, since `|` cannot start an
identifier; so failure of the group is failure of the tail. -/
def edgeTail (s : List Char) : Option (String × String × List Char) :=
  let r1 := s.dropWhile regexSpace
  match r1 with
  | '|' :: t =>
    let body := t.takeWhile (fun c => c != '|')
    (match t.drop body.length with
     | '|' :: t3 =>
       let t4 := t3.dropWhile regexSpace
       (match identMunch t4 with
        | some (toc, rest) => some (String.mk body, String.mk toc, rest)
        | none => none)
     | _ => none)
  | _ =>
    match identMunch r1 with
    | some (toc, rest) => some ("", String.mk toc, rest)
    | none => none

/-- Try the arrow alternatives in order; on an arrow whose continuation
fails, backtrack to the next alternative (Perl alternation). -/
def tryEdgeArrows : List (List CPat) → List Char → Option (String × String × String × List Char)
  | [], _ => none
  | pat :: rest, s =>
    match matchArrowPat pat s with
    | some (sty, r2) =>
      (match edgeTail r2 with
       | some (lab, toId, rest2) => some (String.mk sty, lab, toId, rest2)
       | none => tryEdgeArrows rest s)
    | none => tryEdgeArrows rest s

/-- Attempt an `edgePattern` match starting exactly at the head of `s`.
Shorter first-identifier munches cannot help (the next char would be an
identifier character, which no arrow starts with), so only arrow
alternatives are backtracked. -/
def tryEdgeMatchAt (s : List Char) : Option (EdgeMatch × List Char) :=
  match identMunch s with
  | none => none
  | some (fromc, r0) =>
    let r1 := r0.dropWhile regexSpace
    match tryEdgeArrows arrowPats r1 with
    | some (sty, lab, toId, rest) => some (⟨String.mk fromc, sty, lab, toId⟩, rest)
    | none => none

/-- `FindAllStringSubmatch` scan for `edgePattern`. -/
def edgeScanAux : Nat → List Char → List EdgeMatch
  | 0, _ => []
  | fuel + 1, s =>
    match tryEdgeMatchAt s with
    | some (m, rest) => m :: edgeScanAux fuel rest
    | none =>
      match s with
      | [] => []
      | _ :: t => edgeScanAux fuel t

/-- All `edgePattern` matches of a line. -/
def edgeMatches (s : List Char) : List EdgeMatch := edgeScanAux (s.length + 1) s

/-! ## `parseFlowchart` -/

/-- `case j` of the shape switch in `parseFlowchart`. -/
def shapeOfGroup : Nat → String
  | 2 => "rect"
  | 3 => "round"
  | 4 => "rhombus"
  | 5 => "subroutine"
  | 6 => "cylinder"
  | 7 => "stadium"
  | 8 => "circle"
  | 9 => "asymmetric"
  | 10 => "parallelogram"
  | 11 => "parallelogram-alt"
  | _ => "default"

/-- The label/shape extraction loop of `parseFlowchart`: walk the
submatch slots from group index 2; the first non-empty capture fixes
label and shape, otherwise `("", "default")`. -/
def extractLabelShape : List String → Nat → String × String
  | [], _ => ("", "default")
  | g :: rest, j => if g ≠ "" then (g, shapeOfGroup j) else extractLabelShape rest (j + 1)

/-- The mutable state of `parseFlowchart`: the `seenNodes` set and the
node/edge lists under construction. -/
structure FlowState where
  seen : List String
  nodes : List Node
  edges : List Edge
  deriving DecidableEq

/-- Register one edge endpoint: `if !seenNodes[id] { … append Node{ID, Line} }`. -/
def registerEndpoint (ln : Int) (st : FlowState) (id : String) : FlowState :=
  if id ∈ st.seen then st
  else { st with seen := id :: st.seen, nodes := st.nodes ++ [⟨id, "", ln, ""⟩] }

/-- Process one edge match: append the `Edge`, then register `From` and
`To` in that order. -/
def registerEdgeMatch (ln : Int) (st : FlowState) (m : EdgeMatch) : FlowState :=
  let st1 := { st with edges := st.edges ++ [⟨m.From, m.To, m.Label, ln, m.Style⟩] }
  registerEndpoint ln (registerEndpoint ln st1 m.From) m.To

/-- The backfill loop of `parseFlowchart`: update the first node with
this `ID` and an empty `Label`, then `break`. -/
def backfillFirst : List Node → String → String → String → List Node
  | [], _, _, _ => []
  | n :: rest, id, label, shape =>
    if n.ID = id ∧ n.Label = "" then { n with Label := label, Shape := shape } :: rest
    else n :: backfillFirst rest id label shape

/-- The node-definition branch of `parseFlowchart`: a fresh id appends
a new `Node`; a seen id with a non-empty extracted label backfills; a
seen id with an empty extracted label changes nothing. -/
def registerNodeDef (ln : Int) (st : FlowState) (id label shape : String) : FlowState :=
  if id ∈ st.seen then
    if label ≠ "" then { st with nodes := backfillFirst st.nodes id label shape } else st
  else
    { st with seen := id :: st.seen, nodes := st.nodes ++ [⟨id, label, ln, shape⟩] }

/-- Process one node-definition match (`if id == "" { continue }`, then
extraction, then registration). -/
def registerNodeMatch (ln : Int) (st : FlowState) (m : NodeMatch) : FlowState :=
  if m.id = "" then st
  else
    let ls := extractLabelShape m.groups 2
    registerNodeDef ln st m.id ls.1 ls.2

/-- Per-line body of `parseFlowchart`: all edge matches first, then all
node-definition matches. -/
def processLine (ln : Int) (trimmed : List Char) (st : FlowState) : FlowState :=
  let st1 := (edgeMatches trimmed).foldl (registerEdgeMatch ln) st
  (nodeDefMatches trimmed).foldl (registerNodeMatch ln) st1

/-- One iteration of the `parseFlowchart` line loop, including all the
skip conditions (blank/comment, declaration, directives; the dead
`classDef ` check on the lowercased line is kept as in the source). -/
def parseFlowchartLine (startLine : Int) (i : Nat) (line : String) (st : FlowState) : FlowState :=
  let trimmed := trimSpace line
  if (trimmed == "") || hasPrefixStr trimmed "%%" then st
  else if (i == 0) || isDeclarationLine trimmed then st
  else
    let lower := toLowerStr trimmed
    if hasPrefixStr lower "subgraph" || (lower == "end") || hasPrefixStr lower "style " ||
       hasPrefixStr lower "classDef " || hasPrefixStr lower "classdef " ||
       hasPrefixStr lower "click " || hasPrefixStr lower "linkstyle " then st
    else processLine (startLine + (i : Int)) trimmed.data st

/-- The `parseFlowchart` line loop (`i` is the 0-based line index). -/
def parseFlowchartLines (startLine : Int) : List String → Nat → FlowState → FlowState
  | [], _, st => st
  | line :: rest, i, st =>
    parseFlowchartLines startLine rest (i + 1) (parseFlowchartLine startLine i line st)

/-- `(*Diagram).parseFlowchart`. -/
def parseFlowchart (d : Diagram) (lines : List String) : Diagram :=
  let st := parseFlowchartLines d.StartLine lines 0 ⟨[], [], []⟩
  { d with Nodes := st.nodes, Edges := st.edges }

/-- `(*Diagram).parseType` result, with the zero values when no
significant line exists. -/
def parseTypeResult (lines : List String) : String × String × String :=
  match parseTypeLoop lines with
  | some r => r
  | none => ("", "", "")

/-- `parser.Parse`. -/
def Parse (source : String) (startLine : Int) : Diagram :=
  let lines := splitLines source
  let t := parseTypeResult lines
  let d0 : Diagram := ⟨t.2.1, t.1, t.2.2, [], [], lines, startLine⟩
  if t.2.1 = "flowchart" ∨ t.2.1 = "graph" then parseFlowchart d0 lines else d0

/-! ## Config (pkg/config) -/

/-- `config.RuleConfig` (`Severity` is the severity string). -/
structure RuleConfig where
  enabled : Bool
  severity : String
  deriving DecidableEq

/-- `config.Config`: the rule map, as an association list. -/
structure Config where
  rules : List (String × RuleConfig)
  deriving DecidableEq

/-- Association-list lookup (Go map read on `cfg.Rules`). -/
def lookupRule : List (String × RuleConfig) → String → Option RuleConfig
  | [], _ => none
  | (k, v) :: rest, key => if k = key then some v else lookupRule rest key

/-- `config.DefaultConfig`. -/
def DefaultConfig : Config :=
  ⟨[("no-unknown-diagram-type", ⟨true, "error"⟩),
    ("no-empty-diagram", ⟨true, "warning"⟩),
    ("valid-direction", ⟨true, "error"⟩),
    ("no-duplicate-node-ids", ⟨true, "warning"⟩),
    ("node-has-label", ⟨true, "info"⟩),
    ("no-orphan-nodes", ⟨true, "warning"⟩)]⟩

/-- `(*Config).IsRuleEnabled`: absent rule names are disabled. -/
def IsRuleEnabled (c : Config) (name : String) : Bool :=
  match lookupRule c.rules name with
  | none => false
  | some rc => rc.enabled

/-- `(*Config).RuleSeverity`: absent rule names default to warning. -/
def RuleSeverity (c : Config) (name : String) : String :=
  match lookupRule c.rules name with
  | none => "warning"
  | some rc => rc.severity

/-! ## Rules (pkg/linter/rules.go) -/

/-- `linter.Finding`. -/
structure Finding where
  Rule : String
  Severity : String
  Message : String
  File : String
  Line : Int
  deriving DecidableEq

/-- `fmt.Sprintf %q`, for the identifier strings it is applied to here. -/
def quoteStr (s : String) : String := "\"" ++ s ++ "\""

/-- Whether a `Diagram` is of a flow-style type (the guard shared by the
five structural rules). -/
def isFlowType (d : Diagram) : Prop := d.«Type» = "flowchart" ∨ d.«Type» = "graph"

instance (d : Diagram) : Decidable (isFlowType d) := by
  unfold isFlowType; infer_instance

/-- `NoUnknownDiagramType.Check`. -/
def noUnknownDiagramTypeCheck (d : Diagram) : List Finding :=
  if d.«Type» = "unknown" ∧ d.TypeRaw ≠ "" then
    [⟨"no-unknown-diagram-type", "", "unknown diagram type " ++ quoteStr d.TypeRaw, "", d.StartLine⟩]
  else if d.TypeRaw = "" then
    [⟨"no-unknown-diagram-type", "", "no diagram type declaration found", "", d.StartLine⟩]
  else
    []

/-- `NoEmptyDiagram.Check`. -/
def noEmptyDiagramCheck (d : Diagram) : List Finding :=
  if ¬ isFlowType d then []
  else if d.Nodes = [] ∧ d.Edges = [] then
    [⟨"no-empty-diagram", "", "diagram has no nodes or edges", "", d.StartLine⟩]
  else
    []

/-- `ValidDirection.Check`. -/
def validDirectionCheck (d : Diagram) : List Finding :=
  if ¬ isFlowType d then []
  else if d.Direction = "" then []
  else if toUpperStr d.Direction ∉ ValidFlowchartDirections then
    [⟨"valid-direction", "",
      "invalid flowchart direction " ++ quoteStr d.Direction ++ "; must be one of TB, TD, BT, LR, RL",
      "", d.StartLine⟩]
  else
    []

/-- First-line association list lookup for `NoDuplicateNodeIDs.Check`. -/
def lookupFirstLine : List (String × Int) → String → Option Int
  | [], _ => none
  | (k, v) :: rest, key => if k = key then some v else lookupFirstLine rest key

/-- The duplicate message of `NoDuplicateNodeIDs.Check`. -/
def dupMsg (id : String) (firstLine : Int) : String :=
  "duplicate node ID " ++ quoteStr id ++ " (first defined at line " ++ toString firstLine ++ ")"

/-- The node loop of `NoDuplicateNodeIDs.Check`: `seen` maps an id to
its first line; a second occurrence appends a finding, a first
occurrence records its line. -/
def dupLoop : List Node → List (String × Int) → List Finding → List Finding
  | [], _, findings => findings
  | n :: rest, seen, findings =>
    match lookupFirstLine seen n.ID with
    | some firstLine =>
      dupLoop rest seen (findings ++ [⟨"no-duplicate-node-ids", "", dupMsg n.ID firstLine, "", n.Line⟩])
    | none => dupLoop rest (seen ++ [(n.ID, n.Line)]) findings

/-- `NoDuplicateNodeIDs.Check`. -/
def noDuplicateNodeIDsCheck (d : Diagram) : List Finding :=
  if ¬ isFlowType d then [] else dupLoop d.Nodes [] []

/-- The message of `NodeHasLabel.Check`. -/
def labelMsg (id : String) : String := "node " ++ quoteStr id ++ " has no label"

/-- The node loop of `NodeHasLabel.Check`. -/
def nodeHasLabelFindings : List Node → List Finding
  | [] => []
  | n :: rest =>
    if n.Label = "" then ⟨"node-has-label", "", labelMsg n.ID, "", n.Line⟩ :: nodeHasLabelFindings rest
    else nodeHasLabelFindings rest

/-- `NodeHasLabel.Check`. -/
def nodeHasLabelCheck (d : Diagram) : List Finding :=
  if ¬ isFlowType d then [] else nodeHasLabelFindings d.Nodes

/-- The message of `NoOrphanNodes.Check`. -/
def orphanMsg (id : String) : String := "node " ++ quoteStr id ++ " is not connected to any edge"

/-- The `connected` set of `NoOrphanNodes.Check` (both endpoints of
every edge). -/
def connectedIDs : List Edge → List String
  | [] => []
  | e :: rest => e.From :: e.To :: connectedIDs rest

/-- The node loop of `NoOrphanNodes.Check`. -/
def orphanFindings : List Node → List String → List Finding
  | [], _ => []
  | n :: rest, connected =>
    if n.ID ∈ connected then orphanFindings rest connected
    else ⟨"no-orphan-nodes", "", orphanMsg n.ID, "", n.Line⟩ :: orphanFindings rest connected

/-- `NoOrphanNodes.Check`. -/
def noOrphanNodesCheck (d : Diagram) : List Finding :=
  if ¬ isFlowType d then []
  else if d.Edges = [] then []
  else orphanFindings d.Nodes (connectedIDs d.Edges)

/-- The `linter.Rule` capability set (name and check; descriptions are
irrelevant to the engine). -/
structure Rule where
  name : String
  check : Diagram → List Finding

/-- `linter.AllRules`, in registry order. -/
def AllRules : List Rule :=
  [⟨"no-unknown-diagram-type", noUnknownDiagramTypeCheck⟩,
   ⟨"no-empty-diagram", noEmptyDiagramCheck⟩,
   ⟨"valid-direction", validDirectionCheck⟩,
   ⟨"no-duplicate-node-ids", noDuplicateNodeIDsCheck⟩,
   ⟨"node-has-label", nodeHasLabelCheck⟩,
   ⟨"no-orphan-nodes", noOrphanNodesCheck⟩]

/-- `(*Linter).lintDiagram`: visit the rules in registry order, skip
disabled ones, stamp `File` and `Severity` on every finding, append in
order. -/
def lintDiagram (cfg : Config) (d : Diagram) (filename : String) : List Finding :=
  AllRules.foldl
    (fun findings rule =>
      if ¬ IsRuleEnabled cfg rule.name then findings
      else
        findings ++ (rule.check d).map
          (fun f => { f with File := filename, Severity := RuleSeverity cfg rule.name }))
    []

/-- `(*Linter).LintSource`. -/
def lintSource (cfg : Config) (source filename : String) : List Finding :=
  lintDiagram cfg (Parse source 1) filename

/-! ## Spec-side definitions (for the refinement-style claims)

These are written from the specification's sentences, to be compared
with the implementation definitions above. -/

/-- Written from the spec sentence for `no-duplicate-node-ids`: walking
the node list with the already-walked prefix `pre`, every node whose id
already occurred among earlier nodes yields one finding at that node's
line whose message references the first matching earlier node's line. -/
def dupFindingsSpec (pre : List Node) : List Node → List Finding
  | [] => []
  | n :: rest =>
    match pre.find? (fun m => m.ID == n.ID) with
    | some m => ⟨"no-duplicate-node-ids", "", dupMsg n.ID m.Line, "", n.Line⟩ :: dupFindingsSpec (pre ++ [n]) rest
    | none => dupFindingsSpec (pre ++ [n]) rest

/-- Written from the spec sentence for `no-orphan-nodes`: a node is
connected when its id appears in some edge endpoint. -/
def connectedSpec (edges : List Edge) (id : String) : Bool :=
  edges.any (fun e => e.From == id || e.To == id)

/-- The invariant maintained by `parseFlowchart`: node ids are pairwise
distinct and `seen` holds exactly the registered ids. -/
def FlowInv (st : FlowState) : Prop :=
  (st.nodes.map Node.ID).Nodup ∧ ∀ id, id ∈ st.seen ↔ id ∈ st.nodes.map Node.ID

/-! # Lemmas about the block extractor -/

theorem scanBlocks_skip_open_free (pre : List String) :
    ∀ (ys : List String) (n : Int),
    (∀ l ∈ pre, isMermaidFenceOpen (trimSpace l) = false) →
    scanBlocks (pre ++ ys) n none = scanBlocks ys (n + pre.length) none := by
  induction pre with
  | nil => intro ys n _; simp [scanBlocks]
  | cons l rest ih =>
    intro ys n h
    have hl : isMermaidFenceOpen (trimSpace l) = false := h l (List.mem_cons_self l rest)
    have hrest : ∀ x ∈ rest, isMermaidFenceOpen (trimSpace x) = false :=
      fun x hx => h x (List.mem_cons_of_mem l hx)
    have harith : (n + 1) + (rest.length : Int) = n + ((l :: rest).length : Int) := by
      rw [List.length_cons]; push_cast; ring
    simp only [List.cons_append, scanBlocks, hl, Bool.false_eq_true, if_false, List.append_eq]
    rw [ih ys (n + 1) hrest, harith]

theorem scanBlocks_buffer (mid : List String) :
    ∀ (ys : List String) (n L : Int) (buf : List String),
    (∀ l ∈ mid, isClosingFence (trimSpace l) = false) →
    scanBlocks (mid ++ ys) n (some (L, buf)) =
      scanBlocks ys (n + mid.length) (some (L, buf ++ mid)) := by
  induction mid with
  | nil => intro ys n L buf _; simp [scanBlocks]
  | cons l rest ih =>
    intro ys n L buf h
    have hl : isClosingFence (trimSpace l) = false := h l (List.mem_cons_self l rest)
    have hrest : ∀ x ∈ rest, isClosingFence (trimSpace x) = false :=
      fun x hx => h x (List.mem_cons_of_mem l hx)
    have harith : (n + 1) + (rest.length : Int) = n + ((l :: rest).length : Int) := by
      rw [List.length_cons]; push_cast; ring
    have hbuf : (buf ++ [l]) ++ rest = buf ++ (l :: rest) := by simp
    simp only [List.cons_append, scanBlocks, hl, Bool.false_eq_true, if_false, List.append_eq]
    rw [ih ys (n + 1) L (buf ++ [l]) hrest, harith, hbuf]

theorem scanBlocks_nil_of_open_free (post : List String) :
    ∀ n, (∀ l ∈ post, isMermaidFenceOpen (trimSpace l) = false) →
    scanBlocks post n none = [] := by
  intro n h
  have := scanBlocks_skip_open_free post [] n h
  simpa [scanBlocks] using this

theorem scanBlocks_nil_of_close_free (ls : List String) (n L : Int) (buf : List String)
    (h : ∀ l ∈ ls, isClosingFence (trimSpace l) = false) :
    scanBlocks ls n (some (L, buf)) = [] := by
  have := scanBlocks_buffer ls [] n L buf h
  simpa [scanBlocks] using this

theorem scanBlocks_append (ls : List String) :
    ∀ (ys : List String) (n : Int) (cur : Option (Int × List String)),
    scanBlocks (ls ++ ys) n cur =
      scanBlocks ls n cur ++ scanBlocks ys (n + ls.length) (scanFinal ls n cur) := by
  induction ls with
  | nil => intro ys n cur; simp [scanBlocks, scanFinal]
  | cons l rest ih =>
    intro ys n cur
    have harith : (n + 1) + (rest.length : Int) = n + ((l :: rest).length : Int) := by
      rw [List.length_cons]; push_cast; ring
    cases cur with
    | none =>
      by_cases h : isMermaidFenceOpen (trimSpace l) = true
      · simp only [List.cons_append, scanBlocks, scanFinal, h, if_true, List.append_eq]
        rw [ih ys (n + 1) (some (n + 1, [])), harith]
      · simp only [List.cons_append, scanBlocks, scanFinal, h, if_false, List.append_eq,
          Bool.not_eq_true] at *
        simp only [h, Bool.false_eq_true, if_false]
        rw [ih ys (n + 1) none, harith]
    | some st =>
      obtain ⟨L, buf⟩ := st
      by_cases h : isClosingFence (trimSpace l) = true
      · simp only [List.cons_append, scanBlocks, scanFinal, h, if_true, List.append_eq]
        rw [ih ys (n + 1) none, harith]
      · simp only [List.cons_append, scanBlocks, scanFinal, h, if_false, List.append_eq,
          Bool.not_eq_true] at *
        simp only [h, Bool.false_eq_true, if_false]
        rw [ih ys (n + 1) (some (L, buf ++ [l])), harith]

theorem closing_false_of_open (t : String) (h : isMermaidFenceOpen t = true) :
    isClosingFence t = false := by
  by_cases h1 : t = "```"
  · subst h1; exact absurd h (by decide)
  · by_cases h2 : t = "~~~"
    · subst h2; exact absurd h (by decide)
    · simp [isClosingFence, h1, h2]

/-! # C5 and C10 -/

/-- C5: for a document with exactly one well-formed mermaid fenced block
— no fence opens in the `pre` lines, a mermaid opening fence follows at
line `L = pre.length + 1`, none of the `k = mid.length` enclosed lines
closes the fence, a closing fence follows at line `L + k + 1`, and no
fence opens afterwards — `ExtractMermaidBlocks` emits exactly one block
with `StartLine = L`, `EndLine = L + k + 1`, and `Source` the `mid`
lines joined with newlines (fence lines excluded). -/
theorem extract_single_block_C5
    (pre mid post : List String) (openLine closeLine : String)
    (hpre : ∀ l ∈ pre, isMermaidFenceOpen (trimSpace l) = false)
    (hopen : isMermaidFenceOpen (trimSpace openLine) = true)
    (hmid : ∀ l ∈ mid, isClosingFence (trimSpace l) = false)
    (hclose : isClosingFence (trimSpace closeLine) = true)
    (hpost : ∀ l ∈ post, isMermaidFenceOpen (trimSpace l) = false) :
    ExtractMermaidBlocks (pre ++ openLine :: (mid ++ closeLine :: post)) =
      [⟨joinNL mid, (pre.length : Int) + 1, (pre.length : Int) + (mid.length : Int) + 2⟩] := by
  unfold ExtractMermaidBlocks
  rw [scanBlocks_skip_open_free pre _ 0 hpre]
  simp only [scanBlocks, hopen, if_true]
  rw [scanBlocks_buffer mid _ _ _ _ hmid]
  simp only [scanBlocks, hclose, if_true, List.nil_append]
  rw [scanBlocks_nil_of_open_free post _ hpost]
  simp only [List.cons.injEq, MermaidBlock.mk.injEq, and_true]
  refine ⟨trivial, by omega, by omega⟩

/-- C5 witness: the single-block document from the repository's own
test, fences on lines 5 and 8 enclosing two source lines. -/
theorem extract_single_block_C5_witness :
    ExtractMermaidBlocks
        ["# Title", "", "Some text", "", "```mermaid", "flowchart LR", "  A --> B", "```", "",
          "More text"] =
      [⟨"flowchart LR\n  A --> B", 5, 8⟩] := by
  have h := extract_single_block_C5 ["# Title", "", "Some text", ""]
    ["flowchart LR", "  A --> B"] ["", "More text"] "```mermaid" "```"
    (by decide) (by decide) (by decide) (by decide) (by decide)
  exact h.trans (by decide)

/-- C10: a mermaid fence opened at `openLine` with no closing fence
anywhere after it contributes no block (no error, no partial block):
the extraction of the whole document equals the extraction of the lines
before the unterminated fence, i.e. exactly the properly closed blocks. -/
theorem extract_discards_unclosed_C10
    (pre post : List String) (openLine : String)
    (hopen : isMermaidFenceOpen (trimSpace openLine) = true)
    (hpost : ∀ l ∈ post, isClosingFence (trimSpace l) = false) :
    ExtractMermaidBlocks (pre ++ openLine :: post) = ExtractMermaidBlocks pre := by
  unfold ExtractMermaidBlocks
  rw [scanBlocks_append]
  suffices h : scanBlocks (openLine :: post) (0 + pre.length) (scanFinal pre 0 none) = [] by
    rw [h, List.append_nil]
  cases hfin : scanFinal pre 0 none with
  | none =>
    simp only [scanBlocks, hopen, if_true]
    exact scanBlocks_nil_of_close_free post _ _ _ hpost
  | some st =>
    obtain ⟨L, buf⟩ := st
    have hnc : isClosingFence (trimSpace openLine) = false := closing_false_of_open _ hopen
    simp only [scanBlocks, hnc, Bool.false_eq_true, if_false]
    exact scanBlocks_nil_of_close_free post _ _ _ hpost

/-- C10 witness: a closed block followed by an unterminated mermaid
fence; the unterminated fence is silently discarded and only the closed
block is returned. -/
theorem extract_discards_unclosed_C10_witness :
    ExtractMermaidBlocks ["```mermaid", "graph TD", "```", "```mermaid", "flowchart LR"] =
      [⟨"graph TD", 1, 3⟩] := by
  have h := extract_discards_unclosed_C10 ["```mermaid", "graph TD", "```"] ["flowchart LR"]
    "```mermaid" (by decide) (by decide)
  exact h.trans (by decide)

/-! # Lemmas about `parseFlowchart`: unique node ids -/

theorem nodupAppendSingleton {l : List String} {a : String} (hl : l.Nodup) (ha : a ∉ l) :
    (l ++ [a]).Nodup := by
  simp [List.nodup_append, hl, ha]

theorem flowInv_append_node (st : FlowState) (nd : Node) (edges2 : List Edge)
    (hid : nd.ID ∉ st.seen) (h : FlowInv st) :
    FlowInv ⟨nd.ID :: st.seen, st.nodes ++ [nd], edges2⟩ := by
  have hnotin : nd.ID ∉ st.nodes.map Node.ID := fun hmem => hid ((h.2 nd.ID).mpr hmem)
  refine ⟨?_, ?_⟩
  · rw [List.map_append]
    exact nodupAppendSingleton h.1 hnotin
  · intro x
    have h2 := h.2 x
    constructor
    · intro hx
      rcases List.mem_cons.mp hx with rfl | hx2
      · rw [List.map_append]
        exact List.mem_append_right _ (by simp)
      · rw [List.map_append]
        exact List.mem_append_left _ (h2.mp hx2)
    · intro hx
      rw [List.map_append] at hx
      rcases List.mem_append.mp hx with hx1 | hx2
      · exact List.mem_cons_of_mem _ (h2.mpr hx1)
      · have : x = nd.ID := by simpa using hx2
        exact List.mem_cons.mpr (Or.inl this)

theorem flowInv_registerEndpoint (ln : Int) (st : FlowState) (id : String)
    (h : FlowInv st) : FlowInv (registerEndpoint ln st id) := by
  unfold registerEndpoint
  by_cases hid : id ∈ st.seen
  · rw [if_pos hid]; exact h
  · rw [if_neg hid]
    exact flowInv_append_node st ⟨id, "", ln, ""⟩ st.edges hid h

theorem flowInv_registerEdgeMatch (ln : Int) (st : FlowState) (m : EdgeMatch)
    (h : FlowInv st) : FlowInv (registerEdgeMatch ln st m) := by
  unfold registerEdgeMatch
  apply flowInv_registerEndpoint
  apply flowInv_registerEndpoint
  exact h

theorem backfillFirst_map_id (l : List Node) (id label shape : String) :
    (backfillFirst l id label shape).map Node.ID = l.map Node.ID := by
  induction l with
  | nil => rfl
  | cons n rest ih =>
    unfold backfillFirst
    by_cases hc : n.ID = id ∧ n.Label = ""
    · simp [hc]
    · simp [hc, ih]

theorem flowInv_registerNodeDef (ln : Int) (st : FlowState) (id label shape : String)
    (h : FlowInv st) : FlowInv (registerNodeDef ln st id label shape) := by
  unfold registerNodeDef
  by_cases hid : id ∈ st.seen
  · by_cases hlab : label ≠ ""
    · rw [if_pos hid, if_pos hlab]
      refine ⟨?_, ?_⟩
      · show ((backfillFirst st.nodes id label shape).map Node.ID).Nodup
        rw [backfillFirst_map_id]
        exact h.1
      · intro x
        show x ∈ st.seen ↔ x ∈ (backfillFirst st.nodes id label shape).map Node.ID
        rw [backfillFirst_map_id]
        exact h.2 x
    · rw [if_pos hid, if_neg hlab]; exact h
  · rw [if_neg hid]
    exact flowInv_append_node st ⟨id, label, ln, shape⟩ st.edges hid h

theorem flowInv_registerNodeMatch (ln : Int) (st : FlowState) (m : NodeMatch)
    (h : FlowInv st) : FlowInv (registerNodeMatch ln st m) := by
  unfold registerNodeMatch
  by_cases hm : m.id = ""
  · rw [if_pos hm]; exact h
  · rw [if_neg hm]
    exact flowInv_registerNodeDef ln st m.id _ _ h

theorem flowInv_foldl {α : Type} (f : FlowState → α → FlowState)
    (hf : ∀ st a, FlowInv st → FlowInv (f st a)) :
    ∀ (l : List α) (st : FlowState), FlowInv st → FlowInv (l.foldl f st) := by
  intro l
  induction l with
  | nil => intro st h; exact h
  | cons a rest ih => intro st h; exact ih (f st a) (hf st a h)

theorem flowInv_processLine (ln : Int) (trimmed : List Char) (st : FlowState)
    (h : FlowInv st) : FlowInv (processLine ln trimmed st) := by
  unfold processLine
  exact flowInv_foldl _ (fun st a h => flowInv_registerNodeMatch ln st a h) _ _
    (flowInv_foldl _ (fun st a h => flowInv_registerEdgeMatch ln st a h) _ _ h)

theorem flowInv_parseFlowchartLine (startLine : Int) (i : Nat) (line : String)
    (st : FlowState) (h : FlowInv st) : FlowInv (parseFlowchartLine startLine i line st) := by
  unfold parseFlowchartLine
  dsimp only
  split
  · exact h
  · split
    · exact h
    · split
      · exact h
      · exact flowInv_processLine _ _ _ h

theorem flowInv_parseFlowchartLines (startLine : Int) (lines : List String) :
    ∀ (i : Nat) (st : FlowState), FlowInv st →
    FlowInv (parseFlowchartLines startLine lines i st) := by
  induction lines with
  | nil => intro i st h; exact h
  | cons line rest ih =>
    intro i st h
    exact ih (i + 1) _ (flowInv_parseFlowchartLine startLine i line st h)

theorem parseFlowchart_nodes_nodup (d : Diagram) (lines : List String) :
    ((parseFlowchart d lines).Nodes.map Node.ID).Nodup := by
  unfold parseFlowchart
  have h0 : FlowInv ⟨[], [], []⟩ := ⟨List.nodup_nil, by intro x; simp⟩
  exact (flowInv_parseFlowchartLines d.StartLine lines 0 ⟨[], [], []⟩ h0).1

theorem lookupFirstLine_append (seen : List (String × Int)) (k : String) (v : Int)
    (key : String) :
    lookupFirstLine (seen ++ [(k, v)]) key =
      match lookupFirstLine seen key with
      | some r => some r
      | none => if k = key then some v else none := by
  induction seen with
  | nil => simp [lookupFirstLine]
  | cons p rest ih =>
    obtain ⟨pk, pv⟩ := p
    by_cases hc : pk = key
    · simp [lookupFirstLine, hc]
    · simp [lookupFirstLine, hc, ih]

theorem dupLoop_nil (nodes : List Node) :
    ∀ (seen : List (String × Int)) (acc : List Finding),
    (∀ n ∈ nodes, lookupFirstLine seen n.ID = none) →
    (nodes.map Node.ID).Nodup →
    dupLoop nodes seen acc = acc := by
  induction nodes with
  | nil => intro seen acc _ _; rfl
  | cons n rest ih =>
    intro seen acc hseen hnodup
    have hn : lookupFirstLine seen n.ID = none := hseen n (List.mem_cons_self n rest)
    unfold dupLoop
    rw [hn]
    rw [List.map_cons] at hnodup
    have hhead : n.ID ∉ rest.map Node.ID := (List.nodup_cons.mp hnodup).1
    apply ih
    · intro m hm
      rw [lookupFirstLine_append, hseen m (List.mem_cons_of_mem _ hm)]
      have hue : ¬ n.ID = m.ID := fun he => hhead (he ▸ List.mem_map_of_mem Node.ID hm)
      simp [hue]
    · exact (List.nodup_cons.mp hnodup).2

/-! # C2 -/

/-- C2: for every source string and start line, the node list produced
by `Parse` has pairwise-distinct ids (each id is registered at most
once), and consequently `NoDuplicateNodeIDs.Check` on any diagram
produced by `Parse` returns the empty list. -/
theorem parse_unique_node_ids_C2 (source : String) (startLine : Int) :
    ((Parse source startLine).Nodes.map Node.ID).Nodup ∧
      noDuplicateNodeIDsCheck (Parse source startLine) = [] := by
  have hnodup : ((Parse source startLine).Nodes.map Node.ID).Nodup := by
    unfold Parse
    dsimp only
    split
    · exact parseFlowchart_nodes_nodup _ _
    · exact List.nodup_nil
  refine ⟨hnodup, ?_⟩
  unfold noDuplicateNodeIDsCheck
  split
  · rfl
  · exact dupLoop_nil _ [] [] (fun n _ => rfl) hnodup

/-! # C1: the duplicate-ids rule against the spec sentence -/

theorem findAppendSome {α : Type} (l1 l2 : List α) (p : α → Bool) (r : α)
    (h : l1.find? p = some r) : (l1 ++ l2).find? p = some r := by
  induction l1 with
  | nil => simp [List.find?] at h
  | cons a t ih =>
    by_cases hp : p a = true
    · rw [List.find?_cons_of_pos _ hp] at h
      rw [List.cons_append, List.find?_cons_of_pos _ hp]
      exact h
    · rw [List.find?_cons_of_neg _ hp] at h
      rw [List.cons_append, List.find?_cons_of_neg _ hp]
      exact ih h

theorem findAppendNone {α : Type} (l1 l2 : List α) (p : α → Bool)
    (h : l1.find? p = none) : (l1 ++ l2).find? p = l2.find? p := by
  induction l1 with
  | nil => rfl
  | cons a t ih =>
    by_cases hp : p a = true
    · rw [List.find?_cons_of_pos _ hp] at h
      exact absurd h (by simp)
    · rw [List.find?_cons_of_neg _ hp] at h
      rw [List.cons_append, List.find?_cons_of_neg _ hp]
      exact ih h

theorem dupLoop_eq_spec (rest : List Node) :
    ∀ (pre : List Node) (seen : List (String × Int)) (acc : List Finding),
    (∀ id, lookupFirstLine seen id =
      Option.map Node.Line (pre.find? (fun m => m.ID == id))) →
    dupLoop rest seen acc = acc ++ dupFindingsSpec pre rest := by
  induction rest with
  | nil => intro pre seen acc _; simp [dupLoop, dupFindingsSpec]
  | cons n t ih =>
    intro pre seen acc h
    cases hfind : pre.find? (fun m => m.ID == n.ID) with
    | some m =>
      have hlook : lookupFirstLine seen n.ID = some m.Line := by
        rw [h n.ID, hfind]; rfl
      have hinv : ∀ id, lookupFirstLine seen id =
          Option.map Node.Line ((pre ++ [n]).find? (fun m2 => m2.ID == id)) := by
        intro id
        cases hpre : pre.find? (fun m2 => m2.ID == id) with
        | some r =>
          rw [findAppendSome _ _ _ _ hpre, h id, hpre]
        | none =>
          rw [findAppendNone _ _ _ hpre, h id, hpre]
          by_cases hid : (n.ID == id) = true
          · exfalso
            have hide : n.ID = id := beq_iff_eq.mp hid
            rw [← hide] at hpre
            rw [hpre] at hfind
            exact absurd hfind (by simp)
          · simp [List.find?, hid]
      simp only [dupLoop, dupFindingsSpec, hlook, hfind]
      rw [ih (pre ++ [n]) seen _ hinv]
      simp [List.append_assoc]
    | none =>
      have hlook : lookupFirstLine seen n.ID = none := by rw [h n.ID, hfind]; rfl
      have hinv : ∀ id, lookupFirstLine (seen ++ [(n.ID, n.Line)]) id =
          Option.map Node.Line ((pre ++ [n]).find? (fun m2 => m2.ID == id)) := by
        intro id
        rw [lookupFirstLine_append]
        cases hpre : pre.find? (fun m2 => m2.ID == id) with
        | some r =>
          rw [findAppendSome _ _ _ _ hpre, h id, hpre]
          rfl
        | none =>
          rw [findAppendNone _ _ _ hpre, h id, hpre]
          by_cases hid : n.ID = id
          · subst hid
            simp [List.find?]
          · have hbeq : (n.ID == id) = false := by simp [hid]
            simp [List.find?, hid, hbeq]
      simp only [dupLoop, dupFindingsSpec, hlook, hfind]
      exact ih (pre ++ [n]) _ acc hinv

/-- C1 (amended): the `no-duplicate-node-ids` rule reports occurrences
within the diagram's node list, not occurrences in the source text: for
every flow-style diagram, its findings are exactly one finding per node
whose id already occurred among earlier nodes of the list, located at
that node's line, with a message referencing the line of the first node
carrying that id.  (As the counterexample shows, `Parse` registers each
source id at most once, so the k-th source occurrence of an id never
yields a finding.) -/
theorem duplicate_rule_per_node_list_C1 (d : Diagram) (h : isFlowType d) :
    noDuplicateNodeIDsCheck d = dupFindingsSpec [] d.Nodes := by
  unfold noDuplicateNodeIDsCheck
  rw [if_neg (not_not_intro h)]
  simpa using dupLoop_eq_spec d.Nodes [] [] [] (fun _ => rfl)

/-- C1 witness: a node list in which id `A` occurs at lines 2 and 3; the
check yields exactly one finding, at line 3, referencing line 2. -/
theorem duplicate_rule_per_node_list_C1_witness :
    noDuplicateNodeIDsCheck
        ⟨"flowchart", "flowchart", "LR",
          [⟨"A", "", 2, ""⟩, ⟨"B", "", 2, ""⟩, ⟨"A", "", 3, ""⟩], [], [], 1⟩ =
      dupFindingsSpec [] [⟨"A", "", 2, ""⟩, ⟨"B", "", 2, ""⟩, ⟨"A", "", 3, ""⟩] ∧
    dupFindingsSpec [] [⟨"A", "", 2, ""⟩, ⟨"B", "", 2, ""⟩, ⟨"A", "", 3, ""⟩] =
      [⟨"no-duplicate-node-ids", "", dupMsg "A" 2, "", 3⟩] :=
  ⟨duplicate_rule_per_node_list_C1 _ (Or.inl rfl), by decide⟩

/-- C1 counterexample: in the source
`"flowchart LR\n  A --> B\n  A --> C"` the id `A` occurs on source
lines 2 and 3 (shown by the edge matches), so C1 as stated demands a
`no-duplicate-node-ids` finding at line 3 referencing line 2 — but the
default-config lint of this source yields no such finding at all. -/
theorem duplicate_kth_occurrence_C1_cex :
    (Parse "flowchart LR\n  A --> B\n  A --> C" 1).Edges.map (fun e => (e.From, e.Line)) =
        [("A", 2), ("A", 3)] ∧
    (lintSource DefaultConfig "flowchart LR\n  A --> B\n  A --> C" "doc.mmd").filter
        (fun f => f.Rule == "no-duplicate-node-ids") = [] :=
  ⟨by decide, by decide⟩

/-! # C3 -/

/-- C3: evaluating the parser at the claim's own examples.  Because the
plain-bracket and plain-paren alternatives come first in
`nodeDefPattern` and Go regexps use leftmost-first alternation,
`A[[Sub]]` parses as shape `rect` with label `[Sub` (not `subroutine`
with `Sub`), `A((C))` as `round` with `(C` (not `circle` with `C`), and
`A([S])` as `round` with `[S]` (not `stadium` with `S`) — contradicting
the code's own comments on the pattern's alternatives. -/
theorem shape_delimiters_C3_bug :
    (Parse "flowchart LR\n  A[[Sub]]" 1).Nodes = [⟨"A", "[Sub", 2, "rect"⟩] ∧
    (Parse "flowchart LR\n  A((C))" 1).Nodes = [⟨"A", "(C", 2, "round"⟩] ∧
    (Parse "flowchart LR\n  A([S])" 1).Nodes = [⟨"A", "[S]", 2, "round"⟩] :=
  ⟨by decide, by decide, by decide⟩

/-! # C9 -/

/-- C9: linting `"flowchart XX\n  A --> B"` under the default
configuration yields exactly one `valid-direction` finding, with
severity error, and zero `no-unknown-diagram-type` findings. -/
theorem invalid_direction_scenario_C9 :
    (lintSource DefaultConfig "flowchart XX\n  A --> B" "doc.mmd").filter
        (fun f => f.Rule == "valid-direction") =
      [⟨"valid-direction", "error",
        "invalid flowchart direction \"XX\"; must be one of TB, TD, BT, LR, RL", "doc.mmd", 1⟩] ∧
    (lintSource DefaultConfig "flowchart XX\n  A --> B" "doc.mmd").filter
        (fun f => f.Rule == "no-unknown-diagram-type") = [] :=
  ⟨by decide, by decide⟩

/-! # C7 -/

theorem nodeHasLabelFindings_eq (nodes : List Node) :
    nodeHasLabelFindings nodes =
      (nodes.filter (fun nd => nd.Label == "")).map
        (fun nd => ⟨"node-has-label", "", labelMsg nd.ID, "", nd.Line⟩) := by
  induction nodes with
  | nil => rfl
  | cons n rest ih =>
    unfold nodeHasLabelFindings
    by_cases hc : n.Label = ""
    · have hb : (n.Label == "") = true := by simp [hc]
      rw [if_pos hc, List.filter_cons]
      simp [hb, ih]
    · have hb : (n.Label == "") = false := by simp [hc]
      rw [if_neg hc, List.filter_cons]
      simp [hb, ih]

/-- C7: for every flowchart/graph source, the `node-has-label` rule
produces exactly one finding per parsed node with an empty label, at
that node's line — so the finding count equals the number of
empty-label nodes. -/
theorem node_has_label_count_C7 (source : String) (startLine : Int)
    (h : isFlowType (Parse source startLine)) :
    nodeHasLabelCheck (Parse source startLine) =
      ((Parse source startLine).Nodes.filter (fun nd => nd.Label == "")).map
        (fun nd => ⟨"node-has-label", "", labelMsg nd.ID, "", nd.Line⟩) ∧
    (nodeHasLabelCheck (Parse source startLine)).length =
      ((Parse source startLine).Nodes.filter (fun nd => nd.Label == "")).length := by
  have h1 : nodeHasLabelCheck (Parse source startLine) =
      ((Parse source startLine).Nodes.filter (fun nd => nd.Label == "")).map
        (fun nd => ⟨"node-has-label", "", labelMsg nd.ID, "", nd.Line⟩) := by
    unfold nodeHasLabelCheck
    rw [if_neg (not_not_intro h)]
    exact nodeHasLabelFindings_eq _
  exact ⟨h1, by rw [h1, List.length_map]⟩

/-- C7 witness: `"flowchart LR\n  A --> B"` parses to two label-less
nodes and yields exactly two findings, at line 2. -/
theorem node_has_label_count_C7_witness :
    isFlowType (Parse "flowchart LR\n  A --> B" 1) ∧
    nodeHasLabelCheck (Parse "flowchart LR\n  A --> B" 1) =
      [⟨"node-has-label", "", labelMsg "A", "", 2⟩, ⟨"node-has-label", "", labelMsg "B", "", 2⟩] ∧
    (nodeHasLabelCheck (Parse "flowchart LR\n  A --> B" 1)).length = 2 := by
  refine ⟨by decide, ?_, by decide⟩
  exact ((node_has_label_count_C7 "flowchart LR\n  A --> B" 1 (by decide)).1).trans (by decide)

/-! # C8 -/

theorem mem_connectedIDs (edges : List Edge) (id : String) :
    id ∈ connectedIDs edges ↔ connectedSpec edges id = true := by
  induction edges with
  | nil => simp [connectedIDs, connectedSpec]
  | cons e rest ih =>
    unfold connectedIDs connectedSpec
    simp only [List.mem_cons, List.any_cons, Bool.or_eq_true, beq_iff_eq]
    constructor
    · rintro (rfl | rfl | hx)
      · exact Or.inl (Or.inl rfl)
      · exact Or.inl (Or.inr rfl)
      · exact Or.inr (ih.mp hx)
    · rintro ((h1 | h2) | hrest)
      · exact Or.inl h1.symm
      · exact Or.inr (Or.inl h2.symm)
      · exact Or.inr (Or.inr (ih.mpr hrest))

theorem orphanFindings_eq (edges : List Edge) (nodes : List Node) :
    orphanFindings nodes (connectedIDs edges) =
      (nodes.filter (fun n => !connectedSpec edges n.ID)).map
        (fun n => ⟨"no-orphan-nodes", "", orphanMsg n.ID, "", n.Line⟩) := by
  induction nodes with
  | nil => rfl
  | cons n rest ih =>
    unfold orphanFindings
    by_cases hc : n.ID ∈ connectedIDs edges
    · have hb : connectedSpec edges n.ID = true := (mem_connectedIDs edges n.ID).mp hc
      rw [if_pos hc, List.filter_cons]
      simp [hb, ih]
    · have hb : connectedSpec edges n.ID = false := by
        cases hcs : connectedSpec edges n.ID
        · rfl
        · exact absurd ((mem_connectedIDs edges n.ID).mpr hcs) hc
      rw [if_neg hc, List.filter_cons]
      simp [hb, ih]

/-- C8: for flowchart/graph diagrams the `no-orphan-nodes` rule returns
no findings when the edge list is empty, regardless of node count; with
a non-empty edge list it returns one finding — at that node's line —
per node whose id appears in neither endpoint of any edge. -/
theorem no_orphans_C8 (d : Diagram) (h : isFlowType d) :
    (d.Edges = [] → noOrphanNodesCheck d = []) ∧
    (d.Edges ≠ [] → noOrphanNodesCheck d =
      (d.Nodes.filter (fun n => !connectedSpec d.Edges n.ID)).map
        (fun n => ⟨"no-orphan-nodes", "", orphanMsg n.ID, "", n.Line⟩)) := by
  constructor
  · intro he
    unfold noOrphanNodesCheck
    rw [if_neg (not_not_intro h), if_pos he]
  · intro he
    unfold noOrphanNodesCheck
    rw [if_neg (not_not_intro h), if_neg he]
    exact orphanFindings_eq _ _

/-- C8 witness: with one `A --> B` edge, node `C` is flagged at its
line; with three nodes and no edges, no finding at all. -/
theorem no_orphans_C8_witness :
    noOrphanNodesCheck
        ⟨"graph", "graph", "", [⟨"A", "", 2, ""⟩, ⟨"B", "", 2, ""⟩, ⟨"C", "Orphan", 3, "rect"⟩],
          [⟨"A", "B", "", 2, "-->"⟩], [], 1⟩ =
      [⟨"no-orphan-nodes", "", orphanMsg "C", "", 3⟩] ∧
    noOrphanNodesCheck
        ⟨"graph", "graph", "", [⟨"A", "", 2, ""⟩, ⟨"B", "", 2, ""⟩, ⟨"C", "", 3, ""⟩], [], [], 1⟩ =
      [] := by
  constructor
  · exact ((no_orphans_C8
      ⟨"graph", "graph", "", [⟨"A", "", 2, ""⟩, ⟨"B", "", 2, ""⟩, ⟨"C", "Orphan", 3, "rect"⟩],
        [⟨"A", "B", "", 2, "-->"⟩], [], 1⟩ (Or.inr rfl)).2 (by decide)).trans (by decide)
  · exact (no_orphans_C8
      ⟨"graph", "graph", "", [⟨"A", "", 2, ""⟩, ⟨"B", "", 2, ""⟩, ⟨"C", "", 3, ""⟩], [], [], 1⟩
      (Or.inr rfl)).1 rfl

/-! # C6 -/

theorem dupLoop_rule_mem (nodes : List Node) :
    ∀ (seen : List (String × Int)) (acc : List Finding) (f : Finding),
    f ∈ dupLoop nodes seen acc → f ∈ acc ∨ f.Rule = "no-duplicate-node-ids" := by
  induction nodes with
  | nil => intro seen acc f hf; exact Or.inl hf
  | cons n rest ih =>
    intro seen acc f hf
    unfold dupLoop at hf
    cases hl : lookupFirstLine seen n.ID with
    | some fl =>
      rw [hl] at hf
      rcases ih seen _ f hf with hacc | hrule
      · rcases List.mem_append.mp hacc with h1 | h2
        · exact Or.inl h1
        · have : f = ⟨"no-duplicate-node-ids", "", dupMsg n.ID fl, "", n.Line⟩ := by
            simpa using h2
          exact Or.inr (by rw [this])
      · exact Or.inr hrule
    | none =>
      rw [hl] at hf
      exact ih _ _ f hf

theorem nodeHasLabelFindings_rule (nodes : List Node) (f : Finding)
    (hf : f ∈ nodeHasLabelFindings nodes) : f.Rule = "node-has-label" := by
  induction nodes with
  | nil => simp [nodeHasLabelFindings] at hf
  | cons n rest ih =>
    unfold nodeHasLabelFindings at hf
    by_cases hc : n.Label = ""
    · rw [if_pos hc] at hf
      rcases List.mem_cons.mp hf with rfl | hx
      · rfl
      · exact ih hx
    · rw [if_neg hc] at hf
      exact ih hf

theorem orphanFindings_rule (nodes : List Node) (connected : List String) (f : Finding)
    (hf : f ∈ orphanFindings nodes connected) : f.Rule = "no-orphan-nodes" := by
  induction nodes with
  | nil => simp [orphanFindings] at hf
  | cons n rest ih =>
    unfold orphanFindings at hf
    by_cases hc : n.ID ∈ connected
    · rw [if_pos hc] at hf
      exact ih hf
    · rw [if_neg hc] at hf
      rcases List.mem_cons.mp hf with rfl | hx
      · rfl
      · exact ih hx

/-- Every finding returned by a registered rule's check carries that
rule's name in its `Rule` field. -/
theorem check_rule_eq (r : Rule) (hr : r ∈ AllRules) (d : Diagram) (f : Finding)
    (hf : f ∈ r.check d) : f.Rule = r.name := by
  simp only [AllRules, List.mem_cons, List.not_mem_nil, or_false] at hr
  rcases hr with rfl | rfl | rfl | rfl | rfl | rfl
  · dsimp only at hf ⊢
    unfold noUnknownDiagramTypeCheck at hf
    split at hf
    · rw [List.mem_singleton] at hf
      rw [hf]
    · split at hf
      · rw [List.mem_singleton] at hf
        rw [hf]
      · simp at hf
  · dsimp only at hf ⊢
    unfold noEmptyDiagramCheck at hf
    split at hf
    · simp at hf
    · split at hf
      · rw [List.mem_singleton] at hf
        rw [hf]
      · simp at hf
  · dsimp only at hf ⊢
    unfold validDirectionCheck at hf
    split at hf
    · simp at hf
    · split at hf
      · simp at hf
      · split at hf
        · rw [List.mem_singleton] at hf
          rw [hf]
        · simp at hf
  · dsimp only at hf ⊢
    unfold noDuplicateNodeIDsCheck at hf
    split at hf
    · simp at hf
    · rcases dupLoop_rule_mem _ _ _ f hf with h1 | h2
      · simp at h1
      · exact h2
  · dsimp only at hf ⊢
    unfold nodeHasLabelCheck at hf
    split at hf
    · simp at hf
    · exact nodeHasLabelFindings_rule _ f hf
  · dsimp only at hf ⊢
    unfold noOrphanNodesCheck at hf
    split at hf
    · simp at hf
    · split at hf
      · simp at hf
      · exact orphanFindings_rule _ _ f hf

theorem lintFoldAux (cfg : Config) (d : Diagram) (fn : String) :
    ∀ (rules : List Rule) (acc : List Finding),
    rules.foldl
        (fun findings rule =>
          if ¬ IsRuleEnabled cfg rule.name then findings
          else
            findings ++ (rule.check d).map
              (fun f => { f with File := fn, Severity := RuleSeverity cfg rule.name }))
        acc =
      acc ++ rules.flatMap (fun r =>
        if IsRuleEnabled cfg r.name then
          (r.check d).map (fun f => { f with File := fn, Severity := RuleSeverity cfg r.name })
        else []) := by
  intro rules
  induction rules with
  | nil => intro acc; simp
  | cons r rest ih =>
    intro acc
    rw [List.foldl_cons, List.flatMap_cons, ih]
    by_cases h : IsRuleEnabled cfg r.name = true
    · rw [if_neg (by simp [h]), if_pos h, List.append_assoc]
    · rw [if_pos (by simp [h]), if_neg h, List.nil_append]

/-- C6: the engine visits the six registered rules in registry order; a
rule disabled in (or absent from) the config contributes nothing; every
returned finding carries the supplied filename and the configured
severity of its rule; findings are concatenated in production order,
never deduplicated or reordered. -/
theorem engine_behavior_C6 (cfg : Config) (d : Diagram) (fn : String) :
    lintDiagram cfg d fn =
      AllRules.flatMap (fun r =>
        if IsRuleEnabled cfg r.name then
          (r.check d).map (fun f => { f with File := fn, Severity := RuleSeverity cfg r.name })
        else []) ∧
    (∀ f ∈ lintDiagram cfg d fn, f.File = fn ∧ f.Severity = RuleSeverity cfg f.Rule) ∧
    (∀ name, IsRuleEnabled cfg name = false → ∀ f ∈ lintDiagram cfg d fn, f.Rule ≠ name) := by
  have h1 : lintDiagram cfg d fn =
      AllRules.flatMap (fun r =>
        if IsRuleEnabled cfg r.name then
          (r.check d).map (fun f => { f with File := fn, Severity := RuleSeverity cfg r.name })
        else []) := by
    unfold lintDiagram
    rw [lintFoldAux cfg d fn AllRules []]
    rfl
  have hmem : ∀ f ∈ lintDiagram cfg d fn,
      ∃ r ∈ AllRules, IsRuleEnabled cfg r.name = true ∧ f.Rule = r.name ∧
        f.File = fn ∧ f.Severity = RuleSeverity cfg r.name := by
    intro f hf
    rw [h1] at hf
    rcases List.mem_flatMap.mp hf with ⟨r, hr, hfr⟩
    by_cases he : IsRuleEnabled cfg r.name = true
    · rw [if_pos he] at hfr
      rcases List.mem_map.mp hfr with ⟨f0, hf0, rfl⟩
      exact ⟨r, hr, he, check_rule_eq r hr d f0 hf0, rfl, rfl⟩
    · rw [if_neg he] at hfr
      simp at hfr
  refine ⟨h1, ?_, ?_⟩
  · intro f hf
    rcases hmem f hf with ⟨r, _, _, hrule, hfile, hsev⟩
    exact ⟨hfile, by rw [hrule, hsev]⟩
  · intro name hdis f hf hfname
    rcases hmem f hf with ⟨r, _, he, hrule, _, _⟩
    rw [hfname] at hrule
    rw [← hrule] at he
    rw [hdis] at he
    exact Bool.false_ne_true he

/-- C6 witness: an empty flowchart diagram under the default config
yields exactly the `no-empty-diagram` warning, stamped with the
filename and the configured severity. -/
theorem engine_behavior_C6_witness :
    lintDiagram DefaultConfig ⟨"flowchart", "flowchart", "LR", [], [], [], 1⟩ "w.mmd" =
      [⟨"no-empty-diagram", "warning", "diagram has no nodes or edges", "w.mmd", 1⟩] ∧
    (⟨"no-empty-diagram", "warning", "diagram has no nodes or edges", "w.mmd", 1⟩ :
        Finding).File = "w.mmd" ∧
    (⟨"no-empty-diagram", "warning", "diagram has no nodes or edges", "w.mmd", 1⟩ :
        Finding).Severity =
      RuleSeverity DefaultConfig
        (⟨"no-empty-diagram", "warning", "diagram has no nodes or edges", "w.mmd", 1⟩ :
          Finding).Rule := by
  refine ⟨by decide, ?_⟩
  exact (engine_behavior_C6 DefaultConfig ⟨"flowchart", "flowchart", "LR", [], [], [], 1⟩
    "w.mmd").2.1 _ (by decide)

/-! # C4 -/

theorem backfillFirst_decomp (id label shape : String) :
    ∀ (pre : List Node) (n : Node) (post : List Node),
    (∀ m ∈ pre, ¬(m.ID = id ∧ m.Label = "")) →
    n.ID = id → n.Label = "" →
    backfillFirst (pre ++ n :: post) id label shape =
      pre ++ { n with Label := label, Shape := shape } :: post := by
  intro pre
  induction pre with
  | nil =>
    intro n post _ hid hlab
    simp only [List.nil_append]
    unfold backfillFirst
    rw [if_pos ⟨hid, hlab⟩]
  | cons m rest ih =>
    intro n post hpre hid hlab
    simp only [List.cons_append]
    unfold backfillFirst
    rw [if_neg (hpre m (List.mem_cons_self m rest))]
    rw [ih n post (fun x hx => hpre x (List.mem_cons_of_mem m hx)) hid hlab]

theorem backfillFirst_noop (id label shape : String) :
    ∀ (l : List Node), (∀ m ∈ l, m.ID = id → m.Label ≠ "") →
    backfillFirst l id label shape = l := by
  intro l
  induction l with
  | nil => intro _; rfl
  | cons m rest ih =>
    intro h
    unfold backfillFirst
    rw [if_neg (fun hc => h m (List.mem_cons_self m rest) hc.1 hc.2)]
    rw [ih (fun x hx => h x (List.mem_cons_of_mem m hx))]

/-- C4: the node-definition registration of `parseFlowchart`: (i) a
fresh id appends a `Node` with the definition's extracted label and
shape; (ii) a definition with a non-empty extracted label for a
registered id whose node still has an empty label backfills that node's
label and shape in place; (iii) when every node with that id already
has a non-empty label, the definition changes nothing (no overwrite);
(iv) a definition whose extracted label is empty (e.g. `A[]` or a bare
`A` mention) changes nothing for a registered id; (v) the backfill is
one-time: after (ii), any further definition for that id leaves the
node list unchanged. -/
theorem node_definition_registration_C4 (st : FlowState) (ln : Int) (id label shape : String) :
    (id ∉ st.seen →
      (registerNodeDef ln st id label shape).nodes = st.nodes ++ [⟨id, label, ln, shape⟩]) ∧
    (id ∈ st.seen → label ≠ "" →
      ∀ (pre : List Node) (n : Node) (post : List Node),
        st.nodes = pre ++ n :: post →
        (∀ m ∈ pre, ¬(m.ID = id ∧ m.Label = "")) →
        n.ID = id → n.Label = "" →
        (registerNodeDef ln st id label shape).nodes =
          pre ++ { n with Label := label, Shape := shape } :: post) ∧
    (id ∈ st.seen → (∀ m ∈ st.nodes, m.ID = id → m.Label ≠ "") →
      (registerNodeDef ln st id label shape).nodes = st.nodes) ∧
    (label = "" → id ∈ st.seen →
      (registerNodeDef ln st id label shape).nodes = st.nodes) ∧
    (id ∈ st.seen → label ≠ "" →
      ∀ (pre : List Node) (n : Node) (post : List Node),
        st.nodes = pre ++ n :: post →
        (∀ m ∈ pre, m.ID ≠ id) → n.ID = id → n.Label = "" → (∀ m ∈ post, m.ID ≠ id) →
        ∀ (ln2 : Int) (label2 shape2 : String),
          (registerNodeDef ln2 (registerNodeDef ln st id label shape) id label2 shape2).nodes =
            (registerNodeDef ln st id label shape).nodes) := by
  refine ⟨?_, ?_, ?_, ?_, ?_⟩
  · intro hid
    unfold registerNodeDef
    rw [if_neg hid]
  · intro hid hlab pre n post hnodes hpre hnid hnlab
    unfold registerNodeDef
    rw [if_pos hid, if_pos hlab]
    show backfillFirst st.nodes id label shape = _
    rw [hnodes]
    exact backfillFirst_decomp id label shape pre n post hpre hnid hnlab
  · intro hid hall
    unfold registerNodeDef
    rw [if_pos hid]
    by_cases hlab : label ≠ ""
    · rw [if_pos hlab]
      show backfillFirst st.nodes id label shape = st.nodes
      exact backfillFirst_noop id label shape st.nodes hall
    · rw [if_neg hlab]
  · intro hlab hid
    unfold registerNodeDef
    rw [if_pos hid, if_neg (by simp [hlab])]
  · intro hid hlab pre n post hnodes hpre hnid hnlab hpost ln2 label2 shape2
    have h1 : registerNodeDef ln st id label shape =
        { st with nodes := backfillFirst st.nodes id label shape } := by
      unfold registerNodeDef
      rw [if_pos hid, if_pos hlab]
    have hnodes1 : (registerNodeDef ln st id label shape).nodes =
        pre ++ { n with Label := label, Shape := shape } :: post := by
      rw [h1]
      show backfillFirst st.nodes id label shape = _
      rw [hnodes]
      exact backfillFirst_decomp id label shape pre n post
        (fun m hm hc => hpre m hm hc.1) hnid hnlab
    have hseen1 : (registerNodeDef ln st id label shape).seen = st.seen := by
      rw [h1]
    generalize hgen : registerNodeDef ln st id label shape = st1 at hnodes1 hseen1 ⊢
    unfold registerNodeDef
    rw [if_pos (hseen1.symm ▸ hid)]
    by_cases hlab2 : label2 ≠ ""
    · rw [if_pos hlab2]
      show backfillFirst st1.nodes id label2 shape2 = st1.nodes
      rw [hnodes1]
      apply backfillFirst_noop
      intro m hm hmid
      rcases List.mem_append.mp hm with hm1 | hm2
      · exact absurd hmid (hpre m hm1)
      · rcases List.mem_cons.mp hm2 with rfl | hm3
        · exact hlab
        · exact absurd hmid (hpost m hm3)
    · rw [if_neg hlab2]

/-- C4 witness: the state after `A --> B` (both nodes label-less); the
definition `A[Lbl]`-style match backfills node `A` in place. -/
theorem node_definition_registration_C4_witness :
    ("A" ∈ (⟨["A", "B"], [⟨"A", "", 2, ""⟩, ⟨"B", "", 2, ""⟩], []⟩ : FlowState).seen) ∧
    (registerNodeDef 3 ⟨["A", "B"], [⟨"A", "", 2, ""⟩, ⟨"B", "", 2, ""⟩], []⟩
        "A" "Lbl" "rect").nodes =
      [⟨"A", "Lbl", 2, "rect"⟩, ⟨"B", "", 2, ""⟩] := by
  refine ⟨by decide, ?_⟩
  have h := (node_definition_registration_C4
      ⟨["A", "B"], [⟨"A", "", 2, ""⟩, ⟨"B", "", 2, ""⟩], []⟩ 3 "A" "Lbl" "rect").2.1
    (by decide) (by decide) [] ⟨"A", "", 2, ""⟩ [⟨"B", "", 2, ""⟩] rfl (by simp) rfl rfl
  exact h.trans (by decide)

end MermaidLint
